import Mathlib

/-!
Verification of the `sip` user-space network stack core: the ARP cache
(`src/arp.rs`), the device receive path (`src/dev.rs`), the link output
routine (`src/eth.rs`) and the ARP protocol handlers.

Modelling conventions:
* machine integers are `Nat` (u16 ages saturate exactly as the source does);
* timestamps (`UtcDateTime`) are `Int` seconds, `ARPLIVE = 600` seconds
  (`Duration::minutes(10)`);
* `Ipv4Addr` and `Mac` are `Nat` values (big-endian integer value of the
  address bytes);
* the mutable table is passed and returned explicitly; where the source
  returns `Option<&mut ARPRecord>` the model returns the index of the
  record inside the updated table;
* raw frame bytes are `Fin 256` lists; header reads mirror the
  `read_unaligned` overlays byte for byte;
* fallible operations return the new state together with `Except`.
-/

namespace Sip

/-- ARP table size, `ARP_TBL_SZ` in `src/arp.rs`. -/
def ARP_TBL_SZ : Nat := 10

/-- Liveness window `ARPLIVE = Duration::minutes(10)`, in seconds. -/
def ARPLIVE : Int := 600

/-- One ARP cache record, `ARPRecord` in `src/arp.rs`. -/
structure ARPRecord where
  is_valid : Bool
  age : Nat
  ip : Nat
  mac : Nat
  ctime : Int
  deriving DecidableEq, Repr

/-- `Default for ARPRecord`: invalid, age 0, zero addresses, epoch time. -/
instance : Inhabited ARPRecord :=
  ⟨{ is_valid := false, age := 0, ip := 0, mac := 0, ctime := 0 }⟩

/-- The initial table `ARPRecTbl::new()`: `ARP_TBL_SZ` default records. -/
def initTbl : List ARPRecord := List.replicate ARP_TBL_SZ default

/-- `ARPRecTbl::get_mut_and_update` from `src/arp.rs` (the spec's
`lookup_and_renew`).  Scans records in order, skipping invalid ones;
invalidates in place any valid record with `ctime + ARPLIVE < now`;
on the first valid, non-expired record whose `ip` matches, resets its age
to 0 and stops, returning its index; every valid, non-expired,
non-matching record scanned before that has its age incremented,
saturating at `u16::MAX = 65535`. -/
def get_mut_and_update : List ARPRecord → Nat → Int → List ARPRecord × Option Nat
  | [], _, _ => ([], none)
  | r :: rs, ip, now =>
    if r.is_valid = true then
      if r.ctime + ARPLIVE < now then
        ({ r with is_valid := false } :: (get_mut_and_update rs ip now).1,
          (get_mut_and_update rs ip now).2.map (· + 1))
      else if r.ip = ip then
        ({ r with age := 0 } :: rs, some 0)
      else
        ({ r with age := if r.age < 65535 then r.age + 1 else r.age } ::
            (get_mut_and_update rs ip now).1,
          (get_mut_and_update rs ip now).2.map (· + 1))
    else
      (r :: (get_mut_and_update rs ip now).1,
        (get_mut_and_update rs ip now).2.map (· + 1))

/-- The effect of one scan step on a record the scan passes over without
returning it: invalid records are untouched, expired records are
invalidated, other valid records age by one (saturating). -/
def stepRec (now : Int) (r : ARPRecord) : ARPRecord :=
  if r.is_valid = true then
    if r.ctime + ARPLIVE < now then { r with is_valid := false }
    else { r with age := if r.age < 65535 then r.age + 1 else r.age }
  else r

/-- A record the scan of `get_mut_and_update _ ip now` would return:
valid, not expired, matching ip. -/
def hitB (ip : Nat) (now : Int) (r : ARPRecord) : Bool :=
  r.is_valid && !(decide (r.ctime + ARPLIVE < now)) && (r.ip == ip)

/-- Index of the first element satisfying `p` (model of `Iterator::find`
positions). -/
def findIdxO {α : Type} (p : α → Bool) : List α → Option Nat
  | [] => none
  | a :: l => if p a then some 0 else (findIdxO p l).map (· + 1)

/-- Index and key of the last element with the maximal `age`, the
semantics of Rust `Iterator::max_by_key` (ties return the last element). -/
def lastMaxAge : List ARPRecord → Option (Nat × Nat)
  | [] => none
  | r :: rs =>
    match lastMaxAge rs with
    | none => some (0, r.age)
    | some (j, a) => if r.age ≤ a then some (j + 1, a) else some (0, r.age)

/-- The record `insert` (re)populates a chosen slot with: valid, age 0,
given ip, mac and timestamp. -/
def freshRec (ip mac : Nat) (now : Int) : ARPRecord :=
  { is_valid := true, age := 0, ip := ip, mac := mac, ctime := now }

/-- `ARPRecTbl::insert` from `src/arp.rs`: first `get_mut_and_update`; on a
hit overwrite `mac` and `ctime` in place; otherwise write a fresh record
into the first invalid slot, or failing that into the slot
`max_by_key(age)` picks (the last slot of maximal age). -/
def insert (tbl : List ARPRecord) (ip mac : Nat) (now : Int) : List ARPRecord :=
  match (get_mut_and_update tbl ip now).2 with
  | some j =>
    (get_mut_and_update tbl ip now).1.set j
      { ((get_mut_and_update tbl ip now).1[j]?).getD default with mac := mac, ctime := now }
  | none =>
    match findIdxO (fun r => !r.is_valid) (get_mut_and_update tbl ip now).1 with
    | some i => (get_mut_and_update tbl ip now).1.set i (freshRec ip mac now)
    | none =>
      match lastMaxAge (get_mut_and_update tbl ip now).1 with
      | some (i, _) => (get_mut_and_update tbl ip now).1.set i (freshRec ip mac now)
      | none => (get_mut_and_update tbl ip now).1

/-! ### Characterization of the scan -/

theorem gmau_fst_invalid (a : ARPRecord) (rs : List ARPRecord) (ip : Nat) (now : Int)
    (hv : a.is_valid = false) :
    (get_mut_and_update (a :: rs) ip now).1 = a :: (get_mut_and_update rs ip now).1 := by
  simp [get_mut_and_update, hv]

theorem gmau_snd_invalid (a : ARPRecord) (rs : List ARPRecord) (ip : Nat) (now : Int)
    (hv : a.is_valid = false) :
    (get_mut_and_update (a :: rs) ip now).2 =
      (get_mut_and_update rs ip now).2.map (· + 1) := by
  simp [get_mut_and_update, hv]

theorem gmau_fst_expired (a : ARPRecord) (rs : List ARPRecord) (ip : Nat) (now : Int)
    (hv : a.is_valid = true) (he : a.ctime + ARPLIVE < now) :
    (get_mut_and_update (a :: rs) ip now).1 =
      { a with is_valid := false } :: (get_mut_and_update rs ip now).1 := by
  simp [get_mut_and_update, hv, he]

theorem gmau_snd_expired (a : ARPRecord) (rs : List ARPRecord) (ip : Nat) (now : Int)
    (hv : a.is_valid = true) (he : a.ctime + ARPLIVE < now) :
    (get_mut_and_update (a :: rs) ip now).2 =
      (get_mut_and_update rs ip now).2.map (· + 1) := by
  simp [get_mut_and_update, hv, he]

theorem gmau_fst_hit (a : ARPRecord) (rs : List ARPRecord) (ip : Nat) (now : Int)
    (hv : a.is_valid = true) (he : ¬(a.ctime + ARPLIVE < now)) (hip : a.ip = ip) :
    (get_mut_and_update (a :: rs) ip now).1 = { a with age := 0 } :: rs := by
  simp [get_mut_and_update, hv, he, hip]

theorem gmau_snd_hit (a : ARPRecord) (rs : List ARPRecord) (ip : Nat) (now : Int)
    (hv : a.is_valid = true) (he : ¬(a.ctime + ARPLIVE < now)) (hip : a.ip = ip) :
    (get_mut_and_update (a :: rs) ip now).2 = some 0 := by
  simp [get_mut_and_update, hv, he, hip]

theorem gmau_fst_aged (a : ARPRecord) (rs : List ARPRecord) (ip : Nat) (now : Int)
    (hv : a.is_valid = true) (he : ¬(a.ctime + ARPLIVE < now)) (hip : ¬(a.ip = ip)) :
    (get_mut_and_update (a :: rs) ip now).1 =
      { a with age := if a.age < 65535 then a.age + 1 else a.age } ::
        (get_mut_and_update rs ip now).1 := by
  simp [get_mut_and_update, hv, he, hip]

theorem gmau_snd_aged (a : ARPRecord) (rs : List ARPRecord) (ip : Nat) (now : Int)
    (hv : a.is_valid = true) (he : ¬(a.ctime + ARPLIVE < now)) (hip : ¬(a.ip = ip)) :
    (get_mut_and_update (a :: rs) ip now).2 =
      (get_mut_and_update rs ip now).2.map (· + 1) := by
  simp [get_mut_and_update, hv, he, hip]

theorem gmau_length (tbl : List ARPRecord) (ip : Nat) (now : Int) :
    (get_mut_and_update tbl ip now).1.length = tbl.length := by
  induction tbl with
  | nil => rfl
  | cons a rs ih =>
    cases hv : a.is_valid with
    | false => rw [gmau_fst_invalid a rs ip now hv]; simp [ih]
    | true =>
      by_cases he : a.ctime + ARPLIVE < now
      · rw [gmau_fst_expired a rs ip now hv he]; simp [ih]
      · by_cases hip : a.ip = ip
        · rw [gmau_fst_hit a rs ip now hv he hip]; simp
        · rw [gmau_fst_aged a rs ip now hv he hip]; simp [ih]

theorem gmau_found (tbl : List ARPRecord) (ip : Nat) (now : Int) (j : Nat)
    (h : (get_mut_and_update tbl ip now).2 = some j) :
    ∃ r, tbl[j]? = some r ∧ r.is_valid = true ∧ ¬(r.ctime + ARPLIVE < now) ∧ r.ip = ip ∧
      (get_mut_and_update tbl ip now).1[j]? = some { r with age := 0 } ∧
      ∀ i, j < i → (get_mut_and_update tbl ip now).1[i]? = tbl[i]? := by
  induction tbl generalizing j with
  | nil => simp [get_mut_and_update] at h
  | cons a rs ih =>
    cases hv : a.is_valid with
    | false =>
      rw [gmau_snd_invalid a rs ip now hv] at h
      rw [gmau_fst_invalid a rs ip now hv]
      rcases Option.map_eq_some'.mp h with ⟨j', hj', rfl⟩
      rcases ih j' hj' with ⟨s, hs, hsv, hse, hsip, hs', hrest⟩
      refine ⟨s, by simpa using hs, hsv, hse, hsip, by simpa using hs', ?_⟩
      intro i hi
      cases i with
      | zero => omega
      | succ i => simpa using hrest i (by omega)
    | true =>
      by_cases he : a.ctime + ARPLIVE < now
      · rw [gmau_snd_expired a rs ip now hv he] at h
        rw [gmau_fst_expired a rs ip now hv he]
        rcases Option.map_eq_some'.mp h with ⟨j', hj', rfl⟩
        rcases ih j' hj' with ⟨s, hs, hsv, hse, hsip, hs', hrest⟩
        refine ⟨s, by simpa using hs, hsv, hse, hsip, by simpa using hs', ?_⟩
        intro i hi
        cases i with
        | zero => omega
        | succ i => simpa using hrest i (by omega)
      · by_cases hip : a.ip = ip
        · rw [gmau_snd_hit a rs ip now hv he hip] at h
          rw [gmau_fst_hit a rs ip now hv he hip]
          have hj : j = 0 := by
            have := Option.some.inj h
            omega
          subst hj
          refine ⟨a, by simp, hv, he, hip, by simp, ?_⟩
          intro i hi
          cases i with
          | zero => omega
          | succ i => simp
        · rw [gmau_snd_aged a rs ip now hv he hip] at h
          rw [gmau_fst_aged a rs ip now hv he hip]
          rcases Option.map_eq_some'.mp h with ⟨j', hj', rfl⟩
          rcases ih j' hj' with ⟨s, hs, hsv, hse, hsip, hs', hrest⟩
          refine ⟨s, by simpa using hs, hsv, hse, hsip, by simpa using hs', ?_⟩
          intro i hi
          cases i with
          | zero => omega
          | succ i => simpa using hrest i (by omega)

theorem gmau_before (tbl : List ARPRecord) (ip : Nat) (now : Int) (i : Nat) (r : ARPRecord)
    (hr : tbl[i]? = some r)
    (hlt : ∀ j, (get_mut_and_update tbl ip now).2 = some j → i < j) :
    (get_mut_and_update tbl ip now).1[i]? = some (stepRec now r) := by
  induction tbl generalizing i with
  | nil => simp at hr
  | cons a rs ih =>
    cases hv : a.is_valid with
    | false =>
      rw [gmau_snd_invalid a rs ip now hv] at hlt
      rw [gmau_fst_invalid a rs ip now hv]
      cases i with
      | zero =>
        simp at hr
        simp [stepRec, ← hr, hv]
      | succ i =>
        simp only [List.getElem?_cons_succ] at hr ⊢
        refine ih i hr ?_
        intro j hj
        have := hlt (j + 1) (by simp [hj])
        omega
    | true =>
      by_cases he : a.ctime + ARPLIVE < now
      · rw [gmau_snd_expired a rs ip now hv he] at hlt
        rw [gmau_fst_expired a rs ip now hv he]
        cases i with
        | zero =>
          simp at hr
          simp [stepRec, ← hr, hv, he]
        | succ i =>
          simp only [List.getElem?_cons_succ] at hr ⊢
          refine ih i hr ?_
          intro j hj
          have := hlt (j + 1) (by simp [hj])
          omega
      · by_cases hip : a.ip = ip
        · exfalso
          have := hlt 0 (gmau_snd_hit a rs ip now hv he hip)
          omega
        · rw [gmau_snd_aged a rs ip now hv he hip] at hlt
          rw [gmau_fst_aged a rs ip now hv he hip]
          cases i with
          | zero =>
            simp at hr
            simp [stepRec, ← hr, hv, he]
          | succ i =>
            simp only [List.getElem?_cons_succ] at hr ⊢
            refine ih i hr ?_
            intro j hj
            have := hlt (j + 1) (by simp [hj])
            omega

theorem gmau_none_iff (tbl : List ARPRecord) (ip : Nat) (now : Int) :
    (get_mut_and_update tbl ip now).2 = none ↔
      ∀ r ∈ tbl, r.is_valid = true → ¬(r.ctime + ARPLIVE < now) → r.ip ≠ ip := by
  induction tbl with
  | nil => simp [get_mut_and_update]
  | cons a rs ih =>
    cases hv : a.is_valid with
    | false =>
      rw [gmau_snd_invalid a rs ip now hv]
      simp only [Option.map_eq_none', List.mem_cons]
      rw [ih]
      constructor
      · intro h s hs
        rcases hs with rfl | hs
        · intro hsv; rw [hv] at hsv; cases hsv
        · exact h s hs
      · intro h s hs
        exact h s (Or.inr hs)
    | true =>
      by_cases he : a.ctime + ARPLIVE < now
      · rw [gmau_snd_expired a rs ip now hv he]
        simp only [Option.map_eq_none', List.mem_cons]
        rw [ih]
        constructor
        · intro h s hs
          rcases hs with rfl | hs
          · intro _ hne; exact absurd he hne
          · exact h s hs
        · intro h s hs
          exact h s (Or.inr hs)
      · by_cases hip : a.ip = ip
        · rw [gmau_snd_hit a rs ip now hv he hip]
          simp only [List.mem_cons]
          constructor
          · intro h; cases h
          · intro h
            exact absurd hip (h a (Or.inl rfl) hv he)
        · rw [gmau_snd_aged a rs ip now hv he hip]
          simp only [Option.map_eq_none', List.mem_cons]
          rw [ih]
          constructor
          · intro h s hs
            rcases hs with rfl | hs
            · intro _ _; exact hip
            · exact h s hs
          · intro h s hs
            exact h s (Or.inr hs)

theorem gmau_hits (tbl : List ARPRecord) (ip : Nat) (now : Int) (v : Nat) (rv : ARPRecord)
    (hv : tbl[v]? = some rv)
    (hval : rv.is_valid = true) (hexp : ¬(rv.ctime + ARPLIVE < now)) (hip : rv.ip = ip)
    (hpre : ∀ i s, i < v → tbl[i]? = some s → s.is_valid = true →
      ¬(s.ctime + ARPLIVE < now) → s.ip ≠ ip) :
    (get_mut_and_update tbl ip now).2 = some v := by
  induction tbl generalizing v with
  | nil => simp at hv
  | cons a rs ih =>
    cases hav : a.is_valid with
    | false =>
      rw [gmau_snd_invalid a rs ip now hav]
      cases v with
      | zero =>
        simp at hv
        rw [← hv] at hval
        rw [hav] at hval
        cases hval
      | succ v =>
        simp only [List.getElem?_cons_succ] at hv
        have := ih v hv ?_
        · simp [this]
        · intro i s hi hs hsv hse
          exact hpre (i + 1) s (by omega) (by simpa using hs) hsv hse
    | true =>
      by_cases hae : a.ctime + ARPLIVE < now
      · rw [gmau_snd_expired a rs ip now hav hae]
        cases v with
        | zero =>
          simp at hv
          rw [← hv] at hexp
          exact absurd hae hexp
        | succ v =>
          simp only [List.getElem?_cons_succ] at hv
          have := ih v hv ?_
          · simp [this]
          · intro i s hi hs hsv hse
            exact hpre (i + 1) s (by omega) (by simpa using hs) hsv hse
      · by_cases haip : a.ip = ip
        · rw [gmau_snd_hit a rs ip now hav hae haip]
          cases v with
          | zero => rfl
          | succ v =>
            exfalso
            exact hpre 0 a (by omega) (by simp) hav hae haip
        · rw [gmau_snd_aged a rs ip now hav hae haip]
          cases v with
          | zero =>
            simp at hv
            rw [← hv] at hip
            exact absurd hip haip
          | succ v =>
            simp only [List.getElem?_cons_succ] at hv
            have := ih v hv ?_
            · simp [this]
            · intro i s hi hs hsv hse
              exact hpre (i + 1) s (by omega) (by simpa using hs) hsv hse

/-! ### Victim selection -/

theorem findIdxO_cons_pos {α : Type} (p : α → Bool) (a : α) (l : List α)
    (hp : p a = true) : findIdxO p (a :: l) = some 0 := by
  simp [findIdxO, hp]

theorem findIdxO_cons_neg {α : Type} (p : α → Bool) (a : α) (l : List α)
    (hp : p a = false) : findIdxO p (a :: l) = (findIdxO p l).map (· + 1) := by
  simp [findIdxO, hp]

theorem findIdxO_none_iff {α : Type} (p : α → Bool) (l : List α) :
    findIdxO p l = none ↔ ∀ a ∈ l, p a = false := by
  induction l with
  | nil => simp [findIdxO]
  | cons a l ih =>
    cases hp : p a with
    | true => simp [findIdxO_cons_pos p a l hp, hp]
    | false =>
      rw [findIdxO_cons_neg p a l hp]
      simp only [Option.map_eq_none', List.mem_cons]
      rw [ih]
      constructor
      · intro h s hs
        rcases hs with rfl | hs
        · exact hp
        · exact h s hs
      · intro h s hs
        exact h s (Or.inr hs)

theorem findIdxO_some {α : Type} (p : α → Bool) (l : List α) (i : Nat)
    (h : findIdxO p l = some i) :
    ∃ a, l[i]? = some a ∧ p a = true ∧
      ∀ k s, k < i → l[k]? = some s → p s = false := by
  induction l generalizing i with
  | nil => simp [findIdxO] at h
  | cons a l ih =>
    cases hp : p a with
    | true =>
      rw [findIdxO_cons_pos p a l hp] at h
      have hi := Option.some.inj h
      subst hi
      refine ⟨a, by simp, hp, ?_⟩
      intro k s hk
      omega
    | false =>
      rw [findIdxO_cons_neg p a l hp] at h
      rcases Option.map_eq_some'.mp h with ⟨i', hi', rfl⟩
      rcases ih i' hi' with ⟨b, hb, hpb, hpre⟩
      refine ⟨b, by simpa using hb, hpb, ?_⟩
      intro k s hk hs
      cases k with
      | zero =>
        simp at hs
        rw [← hs]
        exact hp
      | succ k => exact hpre k s (by omega) (by simpa using hs)

theorem lastMaxAge_isSome (l : List ARPRecord) (h : l ≠ []) :
    ∃ j a, lastMaxAge l = some (j, a) := by
  cases l with
  | nil => exact absurd rfl h
  | cons r rs =>
    cases hm : lastMaxAge rs with
    | none => exact ⟨0, r.age, by simp [lastMaxAge, hm]⟩
    | some ja =>
      rcases ja with ⟨j, a⟩
      by_cases hle : r.age ≤ a
      · exact ⟨j + 1, a, by simp [lastMaxAge, hm, hle]⟩
      · exact ⟨0, r.age, by simp [lastMaxAge, hm, hle]⟩

theorem lastMaxAge_eq_none (l : List ARPRecord) (h : lastMaxAge l = none) : l = [] := by
  cases l with
  | nil => rfl
  | cons r rs =>
    exfalso
    rcases lastMaxAge_isSome (r :: rs) (by simp) with ⟨j, a, h'⟩
    rw [h] at h'
    cases h'

theorem lastMaxAge_spec (l : List ARPRecord) (j a : Nat)
    (h : lastMaxAge l = some (j, a)) :
    ∃ r, l[j]? = some r ∧ r.age = a ∧
      (∀ (i : Nat) (s : ARPRecord), l[i]? = some s → s.age ≤ a) ∧
      (∀ (i : Nat) (s : ARPRecord), j < i → l[i]? = some s → s.age < a) := by
  induction l generalizing j a with
  | nil => simp [lastMaxAge] at h
  | cons r rs ih =>
    cases hm : lastMaxAge rs with
    | none =>
      have hrs : rs = [] := lastMaxAge_eq_none rs hm
      subst hrs
      simp only [lastMaxAge, hm, Option.some.injEq, Prod.mk.injEq] at h
      obtain ⟨hj, ha⟩ := h
      subst hj
      subst ha
      refine ⟨r, by simp, rfl, ?_, ?_⟩
      · intro i s hs
        cases i with
        | zero =>
          simp at hs
          rw [← hs]
        | succ i => simp at hs
      · intro i s hi hs
        cases i with
        | zero => omega
        | succ i => simp at hs
    | some ja =>
      rcases ja with ⟨j', a'⟩
      by_cases hle : r.age ≤ a'
      · simp only [lastMaxAge, hm, hle, if_true, Option.some.injEq, Prod.mk.injEq] at h
        obtain ⟨hj, ha⟩ := h
        subst hj
        subst ha
        rcases ih j' a' hm with ⟨s, hs, hsa, hub, hstrict⟩
        refine ⟨s, by simpa using hs, hsa, ?_, ?_⟩
        · intro i t ht
          cases i with
          | zero =>
            simp at ht
            rw [← ht]
            omega
          | succ i => exact hub i t (by simpa using ht)
        · intro i t hi ht
          cases i with
          | zero => omega
          | succ i => exact hstrict i t (by omega) (by simpa using ht)
      · simp only [lastMaxAge, hm, hle, if_false, Option.some.injEq, Prod.mk.injEq] at h
        obtain ⟨hj, ha⟩ := h
        subst hj
        subst ha
        rcases ih j' a' hm with ⟨s, hs, hsa, hub, hstrict⟩
        refine ⟨r, by simp, rfl, ?_, ?_⟩
        · intro i t ht
          cases i with
          | zero =>
            simp at ht
            rw [← ht]
          | succ i =>
            have := hub i t (by simpa using ht)
            omega
        · intro i t hi ht
          cases i with
          | zero => omega
          | succ i =>
            have := hub i t (by simpa using ht)
            omega

/-! ### Unfolding equations for `insert` -/

theorem insert_eq_hit (tbl : List ARPRecord) (ip mac : Nat) (now : Int) (v : Nat)
    (h : (get_mut_and_update tbl ip now).2 = some v) :
    insert tbl ip mac now = (get_mut_and_update tbl ip now).1.set v
      { ((get_mut_and_update tbl ip now).1[v]?).getD default with mac := mac, ctime := now } := by
  simp only [insert, h]

theorem insert_eq_miss_invalid (tbl : List ARPRecord) (ip mac : Nat) (now : Int) (i : Nat)
    (h : (get_mut_and_update tbl ip now).2 = none)
    (hi : findIdxO (fun r => !r.is_valid) (get_mut_and_update tbl ip now).1 = some i) :
    insert tbl ip mac now =
      (get_mut_and_update tbl ip now).1.set i (freshRec ip mac now) := by
  simp only [insert, h, hi]

theorem insert_eq_miss_full (tbl : List ARPRecord) (ip mac : Nat) (now : Int) (i a : Nat)
    (h : (get_mut_and_update tbl ip now).2 = none)
    (hnone : findIdxO (fun r => !r.is_valid) (get_mut_and_update tbl ip now).1 = none)
    (hm : lastMaxAge (get_mut_and_update tbl ip now).1 = some (i, a)) :
    insert tbl ip mac now =
      (get_mut_and_update tbl ip now).1.set i (freshRec ip mac now) := by
  simp only [insert, h, hnone, hm]

theorem insert_length (tbl : List ARPRecord) (ip mac : Nat) (now : Int) :
    (insert tbl ip mac now).length = tbl.length := by
  cases h : (get_mut_and_update tbl ip now).2 with
  | some v => rw [insert_eq_hit tbl ip mac now v h, List.length_set, gmau_length]
  | none =>
    cases hi : findIdxO (fun r => !r.is_valid) (get_mut_and_update tbl ip now).1 with
    | some i =>
      rw [insert_eq_miss_invalid tbl ip mac now i h hi, List.length_set, gmau_length]
    | none =>
      cases hm : lastMaxAge (get_mut_and_update tbl ip now).1 with
      | some ja =>
        rcases ja with ⟨i, a⟩
        rw [insert_eq_miss_full tbl ip mac now i a h hi hm, List.length_set, gmau_length]
      | none => simp only [insert, h, hi, hm, gmau_length]

/-- Claim C1: for every call of `get_mut_and_update` (the spec's
`lookup_and_renew`): every valid record the scan reaches whose renewal
timestamp is older than the liveness window is invalidated in place; a
returned record is valid, non-expired, matches `ip` and has its age reset
to 0; conversely (hit-completeness) whenever the scan reaches a valid,
non-expired record with address `ip` — it is at some index `v` and every
earlier record is no live match — the call DOES return exactly index `v`,
with that record's age reset to 0; every other valid, non-expired record
the scan reaches has its age incremented by one, saturating at 65535 (the
maximum u16); and the call returns not-found exactly when no valid,
non-expired record matches `ip`. -/
theorem c1_lookup_and_renew_spec (tbl : List ARPRecord) (ip : Nat) (now : Int) :
    (∀ (i : Nat) (r : ARPRecord), tbl[i]? = some r →
        (∀ j, (get_mut_and_update tbl ip now).2 = some j → i < j) →
        r.is_valid = true → r.ctime + ARPLIVE < now →
        (get_mut_and_update tbl ip now).1[i]? = some { r with is_valid := false }) ∧
    (∀ j, (get_mut_and_update tbl ip now).2 = some j →
        ∃ r, tbl[j]? = some r ∧ r.is_valid = true ∧ ¬(r.ctime + ARPLIVE < now) ∧
          r.ip = ip ∧
          (get_mut_and_update tbl ip now).1[j]? = some { r with age := 0 }) ∧
    (∀ (v : Nat) (rv : ARPRecord), tbl[v]? = some rv →
        rv.is_valid = true → ¬(rv.ctime + ARPLIVE < now) → rv.ip = ip →
        (∀ (i : Nat) (s : ARPRecord), i < v → tbl[i]? = some s →
          s.is_valid = true → ¬(s.ctime + ARPLIVE < now) → s.ip ≠ ip) →
        (get_mut_and_update tbl ip now).2 = some v ∧
        (get_mut_and_update tbl ip now).1[v]? = some { rv with age := 0 }) ∧
    (∀ (i : Nat) (r : ARPRecord), tbl[i]? = some r →
        (∀ j, (get_mut_and_update tbl ip now).2 = some j → i < j) →
        r.is_valid = true → ¬(r.ctime + ARPLIVE < now) →
        (get_mut_and_update tbl ip now).1[i]? =
          some { r with age := if r.age < 65535 then r.age + 1 else r.age }) ∧
    ((get_mut_and_update tbl ip now).2 = none ↔
        ∀ r ∈ tbl, r.is_valid = true → ¬(r.ctime + ARPLIVE < now) → r.ip ≠ ip) := by
  refine ⟨?_, ?_, ?_, ?_, ?_⟩
  · intro i r hr hlt hval hexp
    have h := gmau_before tbl ip now i r hr hlt
    rwa [show stepRec now r = { r with is_valid := false } by
      simp [stepRec, hval, hexp]] at h
  · intro j hj
    rcases gmau_found tbl ip now j hj with ⟨r, hr, hval, hexp, hip, hres, _⟩
    exact ⟨r, hr, hval, hexp, hip, hres⟩
  · intro v rv hv hval hexp hip hpre
    have hsnd := gmau_hits tbl ip now v rv hv hval hexp hip hpre
    refine ⟨hsnd, ?_⟩
    rcases gmau_found tbl ip now v hsnd with ⟨r, hr, _, _, _, hres, _⟩
    rw [hv] at hr
    rw [(Option.some.inj hr).symm] at hres
    exact hres
  · intro i r hr hlt hval hexp
    have h := gmau_before tbl ip now i r hr hlt
    rwa [show stepRec now r =
      { r with age := if r.age < 65535 then r.age + 1 else r.age } by
        simp [stepRec, hval, hexp]] at h
  · exact gmau_none_iff tbl ip now

/-! ### Claim C2: eviction policy -/

/-- Fold of `insert` over a list of IPs (all with the same mac and time). -/
def insertMany (tbl : List ARPRecord) (ips : List Nat) (mac : Nat) (now : Int) :
    List ARPRecord :=
  ips.foldl (fun t i => insert t i mac now) tbl

/-- Number of valid records in a table. -/
def countValid (tbl : List ARPRecord) : Nat :=
  (tbl.filter (fun r => r.is_valid)).length

/-- A full table of ten valid records with equal ages: every record ties at
the maximal age, so the stated tie-break (first in scan order) and the
implemented one (`max_by_key`, last in scan order) disagree. -/
def c2tbl : List ARPRecord :=
  [⟨true, 0, 1, 1, 0⟩, ⟨true, 0, 2, 2, 0⟩, ⟨true, 0, 3, 3, 0⟩, ⟨true, 0, 4, 4, 0⟩,
   ⟨true, 0, 5, 5, 0⟩, ⟨true, 0, 6, 6, 0⟩, ⟨true, 0, 7, 7, 0⟩, ⟨true, 0, 8, 8, 0⟩,
   ⟨true, 0, 9, 9, 0⟩, ⟨true, 0, 10, 10, 0⟩]

/-- Claim C2 counterexample: on a full table in which, after the scan,
all ten valid records tie at the maximal age, `insert` of a fresh IP
overwrites index 9 — the tied record encountered LAST in scan order —
while index 0, the tied record encountered first, keeps its old IP.  The
claim as stated (ties broken in favor of the record encountered first)
would require index 0 to be overwritten. -/
theorem c2_tie_break_counterexample :
    (∀ r ∈ (get_mut_and_update c2tbl 11 0).1, r.is_valid = true ∧ r.age = 1) ∧
    ((insert c2tbl 11 77 0)[0]?).map ARPRecord.ip = some 1 ∧
    ((insert c2tbl 11 77 0)[9]?).map ARPRecord.ip = some 11 := by
  decide

/-- Claim C2 (amended: age ties among eviction candidates are broken in
favor of the record encountered LAST in scan order, the semantics of
`Iterator::max_by_key`): when `insert` misses (no valid, non-expired
record for `ip`), the slot overwritten with the fresh record is the first
invalid slot of the post-scan table if one exists, and otherwise a slot
of maximal age such that every later slot has strictly smaller age; and
inserting 11 distinct IPs into the empty 10-slot cache leaves exactly 10
valid records, the 11th insert evicting slot 0, whose age (10) was
maximal at that moment. -/
theorem c2_insert_eviction_amended :
    (∀ (tbl : List ARPRecord) (ip mac : Nat) (now : Int),
      0 < tbl.length →
      (∀ r ∈ tbl, r.is_valid = true → ¬(r.ctime + ARPLIVE < now) → r.ip ≠ ip) →
      ∃ v, v < tbl.length ∧
        insert tbl ip mac now =
          (get_mut_and_update tbl ip now).1.set v (freshRec ip mac now) ∧
        ((∃ (i : Nat) (r : ARPRecord),
            (get_mut_and_update tbl ip now).1[i]? = some r ∧ r.is_valid = false) →
          (∃ r, (get_mut_and_update tbl ip now).1[v]? = some r ∧ r.is_valid = false) ∧
          (∀ (k : Nat) (s : ARPRecord), k < v →
            (get_mut_and_update tbl ip now).1[k]? = some s → s.is_valid = true)) ∧
        ((∀ r ∈ (get_mut_and_update tbl ip now).1, r.is_valid = true) →
          ∃ rv, (get_mut_and_update tbl ip now).1[v]? = some rv ∧
            (∀ (k : Nat) (s : ARPRecord),
              (get_mut_and_update tbl ip now).1[k]? = some s → s.age ≤ rv.age) ∧
            (∀ (k : Nat) (s : ARPRecord), v < k →
              (get_mut_and_update tbl ip now).1[k]? = some s → s.age < rv.age))) ∧
    (countValid (insertMany initTbl [101, 102, 103, 104, 105, 106, 107, 108, 109, 110, 111] 99 0) = 10 ∧
     ((insertMany initTbl [101, 102, 103, 104, 105, 106, 107, 108, 109, 110, 111] 99 0)[0]?).map
        ARPRecord.ip = some 111 ∧
     ((get_mut_and_update
        (insertMany initTbl [101, 102, 103, 104, 105, 106, 107, 108, 109, 110] 99 0) 111 0).1[0]?).map
        ARPRecord.age = some 10 ∧
     (∀ r ∈ (get_mut_and_update
        (insertMany initTbl [101, 102, 103, 104, 105, 106, 107, 108, 109, 110] 99 0) 111 0).1,
        r.age ≤ 10)) := by
  constructor
  · intro tbl ip mac now hlen hmiss
    have hnone : (get_mut_and_update tbl ip now).2 = none :=
      (gmau_none_iff tbl ip now).mpr hmiss
    cases hi : findIdxO (fun r => !r.is_valid) (get_mut_and_update tbl ip now).1 with
    | some i =>
      rcases findIdxO_some _ _ i hi with ⟨a, ha, hpa, hpre⟩
      have hainv : a.is_valid = false := by simpa using hpa
      have hilt : i < tbl.length := by
        have := (List.getElem?_eq_some.mp ha).1
        rwa [gmau_length] at this
      refine ⟨i, hilt, insert_eq_miss_invalid tbl ip mac now i hnone hi, ?_, ?_⟩
      · intro _
        refine ⟨⟨a, ha, hainv⟩, ?_⟩
        intro k s hk hks
        simpa using hpre k s hk hks
      · intro hall
        have hmem : a ∈ (get_mut_and_update tbl ip now).1 :=
          List.mem_iff_getElem?.mpr ⟨i, ha⟩
        have := hall a hmem
        rw [this] at hainv
        cases hainv
    | none =>
      have hne : (get_mut_and_update tbl ip now).1 ≠ [] := by
        have h1 : 0 < (get_mut_and_update tbl ip now).1.length := by
          rwa [gmau_length]
        exact List.length_pos.mp h1
      rcases lastMaxAge_isSome _ hne with ⟨j, a, hm⟩
      rcases lastMaxAge_spec _ j a hm with ⟨rv, hrv, hage, hub, hstrict⟩
      have hjlt : j < tbl.length := by
        have := (List.getElem?_eq_some.mp hrv).1
        rwa [gmau_length] at this
      refine ⟨j, hjlt, insert_eq_miss_full tbl ip mac now j a hnone hi hm, ?_, ?_⟩
      · intro hex
        exfalso
        rcases hex with ⟨i, r, hr, hrinv⟩
        have hmem : r ∈ (get_mut_and_update tbl ip now).1 :=
          List.mem_iff_getElem?.mpr ⟨i, hr⟩
        have := (findIdxO_none_iff _ _).mp hi r hmem
        rw [hrinv] at this
        simp at this
      · intro _
        refine ⟨rv, hrv, ?_, ?_⟩
        · intro k s hks
          rw [hage]
          exact hub k s hks
        · intro k s hk hks
          rw [hage]
          exact hstrict k s hk hks
  · exact ⟨by decide, by decide, by decide, by decide⟩

/-! ### Insert postcondition -/

theorem stepRec_ip (now : Int) (r : ARPRecord) : (stepRec now r).ip = r.ip := by
  unfold stepRec
  split_ifs <;> rfl

theorem stepRec_valid (now : Int) (r : ARPRecord) (h : (stepRec now r).is_valid = true) :
    r.is_valid = true ∧ ¬(r.ctime + ARPLIVE < now) := by
  unfold stepRec at h
  by_cases h1 : r.is_valid = true
  · by_cases h2 : r.ctime + ARPLIVE < now
    · rw [if_pos h1, if_pos h2] at h
      simp at h
    · exact ⟨h1, h2⟩
  · rw [if_neg h1] at h
    exact absurd h h1

theorem gmau_found_least (tbl : List ARPRecord) (ip : Nat) (now : Int) (j : Nat)
    (h : (get_mut_and_update tbl ip now).2 = some j) :
    ∀ (k : Nat) (s : ARPRecord), k < j → tbl[k]? = some s → s.is_valid = true →
      ¬(s.ctime + ARPLIVE < now) → s.ip ≠ ip := by
  induction tbl generalizing j with
  | nil => simp [get_mut_and_update] at h
  | cons a rs ih =>
    cases hv : a.is_valid with
    | false =>
      rw [gmau_snd_invalid a rs ip now hv] at h
      rcases Option.map_eq_some'.mp h with ⟨j', hj', rfl⟩
      intro k s hk hks hsval hsexp
      cases k with
      | zero =>
        simp at hks
        rw [← hks] at hsval
        rw [hv] at hsval
        cases hsval
      | succ k => exact ih j' hj' k s (by omega) (by simpa using hks) hsval hsexp
    | true =>
      by_cases he : a.ctime + ARPLIVE < now
      · rw [gmau_snd_expired a rs ip now hv he] at h
        rcases Option.map_eq_some'.mp h with ⟨j', hj', rfl⟩
        intro k s hk hks hsval hsexp
        cases k with
        | zero =>
          simp at hks
          rw [← hks] at hsexp
          exact absurd he hsexp
        | succ k => exact ih j' hj' k s (by omega) (by simpa using hks) hsval hsexp
      · by_cases hip : a.ip = ip
        · rw [gmau_snd_hit a rs ip now hv he hip] at h
          have hj := Option.some.inj h
          intro k s hk
          omega
        · rw [gmau_snd_aged a rs ip now hv he hip] at h
          rcases Option.map_eq_some'.mp h with ⟨j', hj', rfl⟩
          intro k s hk hks hsval hsexp
          cases k with
          | zero =>
            simp at hks
            rw [← hks]
            exact hip
          | succ k => exact ih j' hj' k s (by omega) (by simpa using hks) hsval hsexp

/-- After any `insert` on a non-empty table there is a slot `v` holding
exactly the fresh record (valid, age 0, the given ip/mac/timestamp);
every slot before `v` holds no valid record with that ip, and every valid
record with that ip elsewhere was already such a record before the call. -/
theorem insert_fresh_at (tbl : List ARPRecord) (ip mac : Nat) (now : Int)
    (hlen : 0 < tbl.length) :
    ∃ v, v < tbl.length ∧
      (insert tbl ip mac now)[v]? = some (freshRec ip mac now) ∧
      (∀ (k : Nat) (s : ARPRecord), k < v → (insert tbl ip mac now)[k]? = some s →
        s.is_valid = true → s.ip ≠ ip) ∧
      (∀ (k : Nat) (s : ARPRecord), v < k → (insert tbl ip mac now)[k]? = some s →
        s.is_valid = true → s.ip = ip →
        ∃ t, tbl[k]? = some t ∧ t.is_valid = true ∧ t.ip = ip) := by
  cases hres : (get_mut_and_update tbl ip now).2 with
  | some j =>
    rcases gmau_found tbl ip now j hres with ⟨rv, hrv, hval, hexp, hfip, hfst, hrest⟩
    have hleast := gmau_found_least tbl ip now j hres
    have hjlen : j < tbl.length := (List.getElem?_eq_some.mp hrv).1
    have hins := insert_eq_hit tbl ip mac now j hres
    have hjlen' : j < (get_mut_and_update tbl ip now).1.length := by
      rw [gmau_length]; exact hjlen
    have hx : { ((get_mut_and_update tbl ip now).1[j]?).getD default with
        mac := mac, ctime := now } = freshRec ip mac now := by
      rw [hfst]
      rcases rv with ⟨v1, a1, i1, m1, c1⟩
      simp only at hval hfip
      simp [freshRec, hval, hfip, Option.getD]
    refine ⟨j, hjlen, ?_, ?_, ?_⟩
    · rw [hins, ← hx]
      exact List.getElem?_set_self hjlen'
    · intro k s hk hks hsval
      rw [hins, List.getElem?_set_ne (by omega)] at hks
      have hklen : k < tbl.length := by omega
      obtain ⟨t, ht⟩ : ∃ t, tbl[k]? = some t :=
        ⟨tbl[k], List.getElem?_eq_some.mpr ⟨hklen, rfl⟩⟩
      have hstep := gmau_before tbl ip now k t ht ?_
      · rw [hstep] at hks
        have hst := Option.some.inj hks
        rcases stepRec_valid now t (by rw [hst]; exact hsval) with ⟨htv, hte⟩
        have : s.ip = t.ip := by rw [← hst, stepRec_ip]
        rw [this]
        exact hleast k t hk ht htv hte
      · intro j' hj'
        rw [hres] at hj'
        have := Option.some.inj hj'
        omega
    · intro k s hk hks hsval hsip
      rw [hins, List.getElem?_set_ne (by omega)] at hks
      rw [hrest k hk] at hks
      exact ⟨s, hks, hsval, hsip⟩
  | none =>
    have hmiss := (gmau_none_iff tbl ip now).mp hres
    obtain ⟨v, hvlt, heq⟩ : ∃ v, v < tbl.length ∧
        insert tbl ip mac now =
          (get_mut_and_update tbl ip now).1.set v (freshRec ip mac now) := by
      cases hi : findIdxO (fun r => !r.is_valid) (get_mut_and_update tbl ip now).1 with
      | some i =>
        rcases findIdxO_some _ _ i hi with ⟨a, ha, _, _⟩
        have : i < tbl.length := by
          have := (List.getElem?_eq_some.mp ha).1
          rwa [gmau_length] at this
        exact ⟨i, this, insert_eq_miss_invalid tbl ip mac now i hres hi⟩
      | none =>
        have hne : (get_mut_and_update tbl ip now).1 ≠ [] := by
          have h1 : 0 < (get_mut_and_update tbl ip now).1.length := by
            rwa [gmau_length]
          exact List.length_pos.mp h1
        rcases lastMaxAge_isSome _ hne with ⟨j, a, hm⟩
        rcases lastMaxAge_spec _ j a hm with ⟨rv, hrv, _, _, _⟩
        have : j < tbl.length := by
          have := (List.getElem?_eq_some.mp hrv).1
          rwa [gmau_length] at this
        exact ⟨j, this, insert_eq_miss_full tbl ip mac now j a hres hi hm⟩
    have hclean : ∀ (k : Nat) (s : ARPRecord), k ≠ v →
        (insert tbl ip mac now)[k]? = some s → s.is_valid = true → s.ip ≠ ip := by
      intro k s hk hks hsval
      rw [heq, List.getElem?_set_ne (by omega)] at hks
      have hklen : k < tbl.length := by
        have := (List.getElem?_eq_some.mp hks).1
        rwa [gmau_length] at this
      obtain ⟨t, ht⟩ : ∃ t, tbl[k]? = some t :=
        ⟨tbl[k], List.getElem?_eq_some.mpr ⟨hklen, rfl⟩⟩
      have hstep := gmau_before tbl ip now k t ht ?_
      · rw [hstep] at hks
        have hst := Option.some.inj hks
        rcases stepRec_valid now t (by rw [hst]; exact hsval) with ⟨htv, hte⟩
        have : s.ip = t.ip := by rw [← hst, stepRec_ip]
        rw [this]
        exact hmiss t (List.mem_iff_getElem?.mpr ⟨k, ht⟩) htv hte
      · intro j' hj'
        rw [hres] at hj'
        cases hj'
    refine ⟨v, hvlt, ?_, ?_, ?_⟩
    · rw [heq]
      exact List.getElem?_set_self (by rw [gmau_length]; exact hvlt)
    · intro k s hk hks hsval
      exact hclean k s (by omega) hks hsval
    · intro k s hk hks hsval hsip
      exact absurd hsip (hclean k s (by omega) hks hsval)

/-- Claim C3: for every ARP cache state, after `insert(ip, mac1)` at `t1`
followed by `insert(ip, mac2)` at `t2` (within the liveness window), a
`lookup_and_renew(ip)` at `t3` (within the window) returns the record at
the same slot `v`, now carrying hardware address `mac2`; the second
insert overwrote slot `v` in place — any other slot holding a valid
record for `ip` after the second insert already held one after the
first, so no second record for `ip` was created. -/
theorem c3_reinsert_overwrites_in_place (tbl : List ARPRecord) (ip mac1 mac2 : Nat)
    (t1 t2 t3 : Int) (hlen : 0 < tbl.length)
    (h12 : ¬(t1 + ARPLIVE < t2)) (h23 : ¬(t2 + ARPLIVE < t3)) :
    ∃ v, v < tbl.length ∧
      (insert tbl ip mac1 t1)[v]? = some (freshRec ip mac1 t1) ∧
      (insert (insert tbl ip mac1 t1) ip mac2 t2)[v]? = some (freshRec ip mac2 t2) ∧
      (get_mut_and_update (insert (insert tbl ip mac1 t1) ip mac2 t2) ip t3).2 = some v ∧
      (get_mut_and_update (insert (insert tbl ip mac1 t1) ip mac2 t2) ip t3).1[v]? =
        some (freshRec ip mac2 t2) ∧
      (freshRec ip mac2 t2).mac = mac2 ∧
      (∀ (k : Nat) (s : ARPRecord), k ≠ v →
        (insert (insert tbl ip mac1 t1) ip mac2 t2)[k]? = some s →
        s.is_valid = true → s.ip = ip →
        ∃ t, (insert tbl ip mac1 t1)[k]? = some t ∧ t.is_valid = true ∧ t.ip = ip) := by
  rcases insert_fresh_at tbl ip mac1 t1 hlen with ⟨v, hvlt, hv1, hpre1, _⟩
  have hlen1 : (insert tbl ip mac1 t1).length = tbl.length := insert_length tbl ip mac1 t1
  have hhit2 : (get_mut_and_update (insert tbl ip mac1 t1) ip t2).2 = some v := by
    refine gmau_hits _ ip t2 v (freshRec ip mac1 t1) hv1 rfl ?_ rfl ?_
    · simpa [freshRec] using h12
    · intro i s hi hs hsv _
      exact hpre1 i s hi hs hsv
  rcases gmau_found _ ip t2 v hhit2 with ⟨rv, hrv1, _, _, _, hfst2, hrest2⟩
  have hrveq : rv = freshRec ip mac1 t1 := by
    rw [hv1] at hrv1
    exact (Option.some.inj hrv1).symm
  subst hrveq
  have hins2 := insert_eq_hit (insert tbl ip mac1 t1) ip mac2 t2 v hhit2
  have hx : { ((get_mut_and_update (insert tbl ip mac1 t1) ip t2).1[v]?).getD default with
      mac := mac2, ctime := t2 } = freshRec ip mac2 t2 := by
    rw [hfst2]
    simp [freshRec, Option.getD]
  have hvlen2 : v < (get_mut_and_update (insert tbl ip mac1 t1) ip t2).1.length := by
    rw [gmau_length, hlen1]
    exact hvlt
  have hv2 : (insert (insert tbl ip mac1 t1) ip mac2 t2)[v]? = some (freshRec ip mac2 t2) := by
    rw [hins2, ← hx]
    exact List.getElem?_set_self hvlen2
  have hpre2 : ∀ (k : Nat) (s : ARPRecord), k < v →
      (insert (insert tbl ip mac1 t1) ip mac2 t2)[k]? = some s →
      s.is_valid = true → s.ip ≠ ip := by
    intro k s hk hks hsval
    rw [hins2, List.getElem?_set_ne (by omega)] at hks
    have hklen : k < (insert tbl ip mac1 t1).length := by omega
    obtain ⟨t, ht⟩ : ∃ t, (insert tbl ip mac1 t1)[k]? = some t :=
      ⟨(insert tbl ip mac1 t1)[k], List.getElem?_eq_some.mpr ⟨hklen, rfl⟩⟩
    have hstep := gmau_before (insert tbl ip mac1 t1) ip t2 k t ht ?_
    · rw [hstep] at hks
      have hst := Option.some.inj hks
      rcases stepRec_valid t2 t (by rw [hst]; exact hsval) with ⟨htv, _⟩
      have : s.ip = t.ip := by rw [← hst, stepRec_ip]
      rw [this]
      exact hpre1 k t hk ht htv
    · intro j' hj'
      rw [hhit2] at hj'
      have := Option.some.inj hj'
      omega
  have hhit3 : (get_mut_and_update (insert (insert tbl ip mac1 t1) ip mac2 t2) ip t3).2 =
      some v := by
    refine gmau_hits _ ip t3 v (freshRec ip mac2 t2) hv2 rfl ?_ rfl ?_
    · simpa [freshRec] using h23
    · intro i s hi hs hsv _
      exact hpre2 i s hi hs hsv
  rcases gmau_found _ ip t3 v hhit3 with ⟨rw2, hrw2, _, _, _, hfst3, _⟩
  have hrw2eq : rw2 = freshRec ip mac2 t2 := by
    rw [hv2] at hrw2
    exact (Option.some.inj hrw2).symm
  subst hrw2eq
  refine ⟨v, hvlt, hv1, hv2, hhit3, ?_, rfl, ?_⟩
  · rw [hfst3]
    simp [freshRec]
  · intro k s hk hks hsval hsip
    rcases Nat.lt_or_ge k v with hkv | hkv
    · exact absurd hsip (hpre2 k s hkv hks hsval)
    · have hkgt : v < k := by omega
      rw [hins2, List.getElem?_set_ne (by omega)] at hks
      rw [hrest2 k hkgt] at hks
      exact ⟨s, hks, hsval, hsip⟩

/-- Claim C3 witness: the double insert and lookup on the concrete empty
table, ip 5, macs 7 then 8, at times 0, 1, 2. -/
theorem c3_reinsert_overwrites_in_place_witness :
    ∃ v, v < initTbl.length ∧
      (insert initTbl 5 7 0)[v]? = some (freshRec 5 7 0) ∧
      (insert (insert initTbl 5 7 0) 5 8 1)[v]? = some (freshRec 5 8 1) ∧
      (get_mut_and_update (insert (insert initTbl 5 7 0) 5 8 1) 5 2).2 = some v ∧
      (get_mut_and_update (insert (insert initTbl 5 7 0) 5 8 1) 5 2).1[v]? =
        some (freshRec 5 8 1) ∧
      (freshRec 5 8 1).mac = 8 ∧
      (∀ (k : Nat) (s : ARPRecord), k ≠ v →
        (insert (insert initTbl 5 7 0) 5 8 1)[k]? = some s →
        s.is_valid = true → s.ip = 5 →
        ∃ t, (insert initTbl 5 7 0)[k]? = some t ∧ t.is_valid = true ∧ t.ip = 5) :=
  c3_reinsert_overwrites_in_place initTbl 5 7 8 0 1 2 (by decide) (by decide) (by decide)

/-! ### Claim C4: at most one valid record per IP -/

/-- The spec's cache invariant: no two distinct slots both hold valid
records with the same IP. -/
def atMostOneIp (tbl : List ARPRecord) : Prop :=
  ∀ (i j : Nat) (ri rj : ARPRecord), tbl[i]? = some ri → tbl[j]? = some rj → i < j →
    ri.is_valid = true → rj.is_valid = true → ri.ip ≠ rj.ip

theorem atMostOneIp_initTbl : atMostOneIp initTbl := by
  intro i j ri rj hi hj hij hvi hvj
  exfalso
  have hmem : ri ∈ initTbl := List.mem_iff_getElem?.mpr ⟨i, hi⟩
  have hd : ri = default := List.eq_of_mem_replicate (by simpa [initTbl] using hmem)
  rw [hd] at hvi
  cases hvi

/-- Every slot of the post-scan table relates to the same slot of the
input: same IP, and validity only ever drops. -/
theorem gmau_pointwise (tbl : List ARPRecord) (ip : Nat) (now : Int) (i : Nat)
    (ri' : ARPRecord) (h : (get_mut_and_update tbl ip now).1[i]? = some ri') :
    ∃ ri, tbl[i]? = some ri ∧ ri'.ip = ri.ip ∧
      (ri'.is_valid = true → ri.is_valid = true) := by
  have hilen : i < tbl.length := by
    have := (List.getElem?_eq_some.mp h).1
    rwa [gmau_length] at this
  obtain ⟨ri, hri⟩ : ∃ ri, tbl[i]? = some ri :=
    ⟨tbl[i], List.getElem?_eq_some.mpr ⟨hilen, rfl⟩⟩
  cases hres : (get_mut_and_update tbl ip now).2 with
  | none =>
    have hstep := gmau_before tbl ip now i ri hri (by intro j' hj'; rw [hres] at hj'; cases hj')
    rw [hstep] at h
    have := Option.some.inj h
    refine ⟨ri, hri, ?_, ?_⟩
    · rw [← this, stepRec_ip]
    · intro hv
      exact (stepRec_valid now ri (by rw [this]; exact hv)).1
  | some v =>
    rcases gmau_found tbl ip now v hres with ⟨rv, hrv, _, _, _, hfst, hrest⟩
    rcases Nat.lt_trichotomy i v with hiv | hiv | hiv
    · have hstep := gmau_before tbl ip now i ri hri ?_
      · rw [hstep] at h
        have := Option.some.inj h
        refine ⟨ri, hri, ?_, ?_⟩
        · rw [← this, stepRec_ip]
        · intro hv
          exact (stepRec_valid now ri (by rw [this]; exact hv)).1
      · intro j' hj'
        rw [hres] at hj'
        have := Option.some.inj hj'
        omega
    · subst hiv
      rw [hfst] at h
      have := Option.some.inj h
      rw [hri] at hrv
      have hr : ri = rv := Option.some.inj hrv
      subst hr
      refine ⟨ri, hri, ?_, ?_⟩
      · rw [← this]
      · intro hv
        rw [← this] at hv
        exact hv
    · rw [hrest i hiv] at h
      rw [hri] at h
      have := Option.some.inj h
      rw [← this]
      exact ⟨ri, hri, rfl, fun hv => hv⟩

/-- After a scan that found no live record for `ip`, no valid record of
the post-scan table carries `ip` at all. -/
theorem gmau_none_fst_clean (tbl : List ARPRecord) (ip : Nat) (now : Int)
    (hres : (get_mut_and_update tbl ip now).2 = none) :
    ∀ (k : Nat) (s : ARPRecord), (get_mut_and_update tbl ip now).1[k]? = some s →
      s.is_valid = true → s.ip ≠ ip := by
  have hmiss := (gmau_none_iff tbl ip now).mp hres
  intro k s hks hsval
  have hklen : k < tbl.length := by
    have := (List.getElem?_eq_some.mp hks).1
    rwa [gmau_length] at this
  obtain ⟨t, ht⟩ : ∃ t, tbl[k]? = some t :=
    ⟨tbl[k], List.getElem?_eq_some.mpr ⟨hklen, rfl⟩⟩
  have hstep := gmau_before tbl ip now k t ht (by intro j' hj'; rw [hres] at hj'; cases hj')
  rw [hstep] at hks
  have hst := Option.some.inj hks
  rcases stepRec_valid now t (by rw [hst]; exact hsval) with ⟨htv, hte⟩
  have : s.ip = t.ip := by rw [← hst, stepRec_ip]
  rw [this]
  exact hmiss t (List.mem_iff_getElem?.mpr ⟨k, ht⟩) htv hte

theorem gmau_preserves_atMostOneIp (tbl : List ARPRecord) (ip : Nat) (now : Int)
    (hinv : atMostOneIp tbl) : atMostOneIp (get_mut_and_update tbl ip now).1 := by
  intro i j ri' rj' hi hj hij hvi hvj
  rcases gmau_pointwise tbl ip now i ri' hi with ⟨ri, hri, hipi, hvmi⟩
  rcases gmau_pointwise tbl ip now j rj' hj with ⟨rj, hrj, hipj, hvmj⟩
  rw [hipi, hipj]
  exact hinv i j ri rj hri hrj hij (hvmi hvi) (hvmj hvj)

theorem insert_preserves_atMostOneIp (tbl : List ARPRecord) (ip mac : Nat) (now : Int)
    (hinv : atMostOneIp tbl) : atMostOneIp (insert tbl ip mac now) := by
  have hinv' := gmau_preserves_atMostOneIp tbl ip now hinv
  cases hres : (get_mut_and_update tbl ip now).2 with
  | some v =>
    rcases gmau_found tbl ip now v hres with ⟨rv, hrv, _, _, _, hfst, _⟩
    have hins := insert_eq_hit tbl ip mac now v hres
    have hset : ∀ (k : Nat) (s : ARPRecord), (insert tbl ip mac now)[k]? = some s →
        ∃ u, (get_mut_and_update tbl ip now).1[k]? = some u ∧ s.ip = u.ip ∧
          (s.is_valid = true → u.is_valid = true) := by
      intro k s hk
      rw [hins] at hk
      by_cases hkv : k = v
      · subst hkv
        have hklen : k < (get_mut_and_update tbl ip now).1.length := by
          have := (List.getElem?_eq_some.mp hk).1
          rwa [List.length_set] at this
        rw [List.getElem?_set_self hklen] at hk
        have hs := Option.some.inj hk
        refine ⟨{ rv with age := 0 }, hfst, ?_, ?_⟩
        · rw [← hs, hfst]
          simp [Option.getD]
        · intro hv
          rw [← hs, hfst] at hv
          simpa [Option.getD] using hv
      · rw [List.getElem?_set_ne (by omega)] at hk
        exact ⟨s, hk, rfl, fun hv => hv⟩
    intro i j ri' rj' hi hj hij hvi hvj
    rcases hset i ri' hi with ⟨ui, hui, hipi, hvmi⟩
    rcases hset j rj' hj with ⟨uj, huj, hipj, hvmj⟩
    rw [hipi, hipj]
    exact hinv' i j ui uj hui huj hij (hvmi hvi) (hvmj hvj)
  | none =>
    have hclean := gmau_none_fst_clean tbl ip now hres
    by_cases hlen : 0 < tbl.length
    · obtain ⟨v, hvlt, heq⟩ : ∃ v, v < tbl.length ∧
          insert tbl ip mac now =
            (get_mut_and_update tbl ip now).1.set v (freshRec ip mac now) := by
        cases hi : findIdxO (fun r => !r.is_valid) (get_mut_and_update tbl ip now).1 with
        | some i =>
          rcases findIdxO_some _ _ i hi with ⟨a, ha, _, _⟩
          have : i < tbl.length := by
            have := (List.getElem?_eq_some.mp ha).1
            rwa [gmau_length] at this
          exact ⟨i, this, insert_eq_miss_invalid tbl ip mac now i hres hi⟩
        | none =>
          have hne : (get_mut_and_update tbl ip now).1 ≠ [] := by
            have h1 : 0 < (get_mut_and_update tbl ip now).1.length := by
              rwa [gmau_length]
            exact List.length_pos.mp h1
          rcases lastMaxAge_isSome _ hne with ⟨j, a, hm⟩
          rcases lastMaxAge_spec _ j a hm with ⟨rv, hrv, _, _, _⟩
          have : j < tbl.length := by
            have := (List.getElem?_eq_some.mp hrv).1
            rwa [gmau_length] at this
          exact ⟨j, this, insert_eq_miss_full tbl ip mac now j a hres hi hm⟩
      have hvlen : v < (get_mut_and_update tbl ip now).1.length := by
        rw [gmau_length]
        exact hvlt
      intro i j ri' rj' hi hj hij hvi hvj
      rw [heq] at hi hj
      by_cases hiv : i = v
      · subst hiv
        rw [List.getElem?_set_self hvlen] at hi
        have hri : ri' = freshRec ip mac now := (Option.some.inj hi).symm
        rw [List.getElem?_set_ne (by omega)] at hj
        have := hclean j rj' hj hvj
        rw [hri]
        intro hcontra
        exact this (by rw [← hcontra]; rfl)
      · by_cases hjv : j = v
        · subst hjv
          rw [List.getElem?_set_self hvlen] at hj
          have hrj : rj' = freshRec ip mac now := (Option.some.inj hj).symm
          rw [List.getElem?_set_ne (by omega)] at hi
          have := hclean i ri' hi hvi
          rw [hrj]
          exact this
        · rw [List.getElem?_set_ne (by omega)] at hi
          rw [List.getElem?_set_ne (by omega)] at hj
          exact hinv' i j ri' rj' hi hj hij hvi hvj
    · intro i j ri' rj' hi hj hij hvi hvj
      exfalso
      have : i < (insert tbl ip mac now).length := (List.getElem?_eq_some.mp hi).1
      rw [insert_length] at this
      omega

/-- Claim C4: the invariant that at most one valid record exists per
distinct IP address holds in the initial (all-invalid) table and is
preserved by every `get_mut_and_update` (lookup_and_renew) and every
`insert`. -/
theorem c4_invariant_at_most_one_valid_per_ip :
    atMostOneIp initTbl ∧
    (∀ (tbl : List ARPRecord) (ip : Nat) (now : Int),
      atMostOneIp tbl → atMostOneIp (get_mut_and_update tbl ip now).1) ∧
    (∀ (tbl : List ARPRecord) (ip mac : Nat) (now : Int),
      atMostOneIp tbl → atMostOneIp (insert tbl ip mac now)) :=
  ⟨atMostOneIp_initTbl, gmau_preserves_atMostOneIp, insert_preserves_atMostOneIp⟩

/-! ### Frames, headers and the device receive path -/

/-- One octet of a raw frame. -/
abbrev Byte := Fin 256

/-- Big-endian integer value of a byte run (how multi-byte header fields
are compared after a `read_unaligned` overlay). -/
def be (bs : List Byte) : Nat := bs.foldl (fun acc b => acc * 256 + b.val) 0

/-- The `n` bytes of a buffer starting at offset `off`. -/
def readBytes (l : List Byte) (off n : Nat) : List Byte := (l.drop off).take n

/-- `size_of::<Eth>()`: 6 + 6 + 2 bytes. -/
def ETH_SIZE : Nat := 14

/-- `size_of::<ARP>()`: 2 + 2 + 1 + 1 + 2 + 6 + 4 + 6 + 4 bytes. -/
def ARP_SIZE : Nat := 28

/-- `size_of::<IPv4>()`: the fixed 20-byte IPv4 header. -/
def IPV4_SIZE : Nat := 20

/-- `Mac::ZERO`, the all-zero hardware address. -/
def MAC_ZERO : Nat := 0

/-- `Mac::BROADCAST`, ff:ff:ff:ff:ff:ff. -/
def MAC_BROADCAST : Nat := 0xffffffffffff

/-- EtherType of ARP, 0x0806. -/
def ETHTYPE_ARP : Nat := 0x0806

/-- EtherType of IPv4, 0x0800. -/
def ETHTYPE_IPV4 : Nat := 0x0800

/-- ARP hardware type `Ethernet10Mb`. -/
def HTYPE_ETHERNET : Nat := 1

/-- ARP operation code Request. -/
def OP_REQUEST : Nat := 1

/-- ARP operation code Reply. -/
def OP_REPLY : Nat := 2

/-- Parsed Ethernet header. -/
structure EthHdr where
  dst : Nat
  src : Nat
  proto : Nat
  deriving DecidableEq, Repr

/-- Modelled from the spec: the Ethernet wire format of §6 (the `Eth`
struct lives in the external `osimodel` crate, not under src/):
destination MAC (6 bytes), source MAC (6 bytes), EtherType (2 bytes),
big-endian network byte order. -/
def parseEth (f : List Byte) : EthHdr :=
  { dst := be (readBytes f 0 6), src := be (readBytes f 6 6),
    proto := be (readBytes f 12 2) }

/-- Parsed ARP header. -/
structure ARPHdr where
  htype : Nat
  ptype : Nat
  hlen : Nat
  plen : Nat
  op : Nat
  sha : Nat
  spa : Nat
  tha : Nat
  tpa : Nat
  deriving DecidableEq, Repr

/-- Modelled from the spec: the ARP wire format of §6 (the `ARP` struct
lives in the external `osimodel` crate, not under src/): hardware type
(2 bytes), protocol type (2), hardware length (1), protocol length (1),
operation (2, 1=request 2=reply), sender hardware address (6), sender
protocol address (4), target hardware address (6), target protocol
address (4). -/
def parseARP (b : List Byte) : ARPHdr :=
  { htype := be (readBytes b 0 2), ptype := be (readBytes b 2 2),
    hlen := be (readBytes b 4 1), plen := be (readBytes b 5 1),
    op := be (readBytes b 6 2), sha := be (readBytes b 8 6),
    spa := be (readBytes b 14 4), tha := be (readBytes b 18 6),
    tpa := be (readBytes b 24 4) }

/-- Modelled from the spec: the standard 20-byte IPv4 header of §6 (the
`IPv4` struct lives in the external `osimodel` crate); the source
address occupies bytes 12..16. -/
def ipv4Src (b : List Byte) : Nat := be (readBytes b 12 4)

/-- Modelled from the spec: `EthProto::into_kind` of the external
`osimodel` crate, per §4.2: a 2-byte value that is a recognised
EtherType when at least 1536, a legacy 802.3 length when at most 1500,
and undefined in between. -/
inductive EthProtoKind where
  | ethType (v : Nat)
  | len (v : Nat)
  | undefinedProto (v : Nat)
  deriving DecidableEq, Repr

def ethProtoKind (v : Nat) : EthProtoKind :=
  if 1536 ≤ v then .ethType v else if v ≤ 1500 then .len v else .undefinedProto v

/-- `NetDevice` of `src/dev.rs`, restricted to the fields the receive and
ARP paths read (the socket descriptor, interface name, hardware type and
MTU are external state that no modelled branch consults). -/
structure NetDevice where
  ip : Nat
  netmask : Nat
  gateway : Nat
  hwa : Nat
  deriving DecidableEq, Repr

/-- The error outcomes of the modelled paths: `anyhow!("Uncomplete
Ethernet Frame ..")`, `anyhow!("Uncomplete ARP packet")`,
`anyhow!("Uncomplete IPv4 header")`, and a propagated socket send
failure. -/
inductive NetErr where
  | uncompleteEth
  | uncompleteARP
  | uncompleteIPv4
  | sendFail
  deriving DecidableEq, Repr

/-- `NetDevice::arp_output` of `src/arp.rs`, as the frame it constructs:
Ethernet header (dst = `dst_mac`, src = `src_mac`, EtherType = ARP) and
ARP header (hardware type Ethernet, protocol type IPv4, lengths 6/4, the
given op, sha/spa from the source, tha = `target_mac`, tpa = `dst_ip`). -/
structure ARPFrame where
  ethDst : Nat
  ethSrc : Nat
  ethProto : Nat
  arp : ARPHdr
  deriving DecidableEq, Repr

def arp_output (op : Nat) (src_ip dst_ip : Nat) (src_mac dst_mac target_mac : Nat) :
    ARPFrame :=
  { ethDst := dst_mac, ethSrc := src_mac, ethProto := ETHTYPE_ARP,
    arp := { htype := HTYPE_ETHERNET, ptype := ETHTYPE_IPV4, hlen := 6, plen := 4,
             op := op, sha := src_mac, spa := src_ip, tha := target_mac,
             tpa := dst_ip } }

/-- The query target `arp_request` actually uses: the netmask itself when
`tip` is outside the device's subnet, `tip` otherwise
(`if tip & self.netmask != self.ip & self.netmask { tip = self.netmask }`). -/
def arp_request_target (dev : NetDevice) (tip : Nat) : Nat :=
  if tip &&& dev.netmask ≠ dev.ip &&& dev.netmask then dev.netmask else tip

/-- `NetDevice::arp_request` of `src/arp.rs`, as the frame it emits:
`arp_output(Request, self.ip, tip, self.hwa, Mac::ZERO, Mac::ZERO)`. -/
def arp_request (dev : NetDevice) (tip : Nat) : ARPFrame :=
  arp_output OP_REQUEST dev.ip (arp_request_target dev tip) dev.hwa MAC_ZERO MAC_ZERO

/-- `NetDevice::arp_input` of `src/arp.rs` over the network-header view
`nh`: fails if fewer than `size_of::<ARP>()` bytes remain; for a Request
op re-issues an ARP request (whose transmission outcome is the oracle
`txOk` — a send failure propagates through `?` BEFORE the table insert);
then records (spa → sha) in the table. -/
def arp_input (dev : NetDevice) (nh : List Byte) (txOk : Bool)
    (tbl : List ARPRecord) (now : Int) : List ARPRecord × Except NetErr Unit :=
  if nh.length < ARP_SIZE then (tbl, Except.error NetErr.uncompleteARP)
  else if (parseARP nh).op = OP_REQUEST ∧ txOk = false then
    (tbl, Except.error NetErr.sendFail)
  else (insert tbl (parseARP nh).spa (parseARP nh).sha now, Except.ok ())

/-- `NetDevice::input` of `src/dev.rs` on one received frame: truncated
Ethernet header fails; a destination that is neither broadcast nor this
device's hardware address is silently filtered; IPv4 frames passively
teach the cache (src IP → src MAC) after a length check; ARP frames go
to `arp_input`; everything else is skipped. -/
def input (dev : NetDevice) (frame : List Byte) (txOk : Bool)
    (tbl : List ARPRecord) (now : Int) : List ARPRecord × Except NetErr Unit :=
  if frame.length < ETH_SIZE then (tbl, Except.error NetErr.uncompleteEth)
  else if (parseEth frame).dst ≠ MAC_BROADCAST ∧ (parseEth frame).dst ≠ dev.hwa then
    (tbl, Except.ok ())
  else
    match ethProtoKind (parseEth frame).proto with
    | EthProtoKind.ethType t =>
      if t = ETHTYPE_IPV4 then
        if (frame.drop ETH_SIZE).length < IPV4_SIZE then
          (tbl, Except.error NetErr.uncompleteIPv4)
        else
          (insert tbl (ipv4Src (frame.drop ETH_SIZE)) (parseEth frame).src now,
            Except.ok ())
      else if t = ETHTYPE_ARP then arp_input dev (frame.drop ETH_SIZE) txOk tbl now
      else (tbl, Except.ok ())
    | EthProtoKind.len _ => (tbl, Except.ok ())
    | EthProtoKind.undefinedProto _ => (tbl, Except.ok ())

/-- `NetDevice::linkoutput` of `src/eth.rs`, with the socket as an oracle
mapping the index of each `sendto` call to its result (the byte count on
success, which the source logs and otherwise ignores).  Returns the list
of byte slices passed to `sendto`, one per chain segment walked, and the
overall outcome: the loop sends each segment's full physical-layer slice
exactly once, stops at the first socket error, and never re-sends a
segment. -/
def linkoutput (oracle : Nat → Except Nat Nat) :
    List (List Byte) → Nat → List (List Byte) × Except Nat Unit
  | [], _ => ([], Except.ok ())
  | seg :: rest, k =>
    match oracle k with
    | Except.error e => ([seg], Except.error e)
    | Except.ok _ =>
      (seg :: (linkoutput oracle rest (k + 1)).1, (linkoutput oracle rest (k + 1)).2)

/-- A sample device: 10.0.0.15/24 with gateway 10.0.0.1. -/
def devA : NetDevice :=
  { ip := 0x0A00000F, netmask := 0xFFFFFF00, gateway := 0x0A000001,
    hwa := 0x0A0B0C0D0E0F }

/-! ### Claims C5, C6, C10: the receive path -/

instance {ε α : Type} [DecidableEq ε] [DecidableEq α] : DecidableEq (Except ε α) :=
  fun x y =>
    match x, y with
    | Except.ok a, Except.ok b => decidable_of_iff (a = b) (by simp)
    | Except.error e, Except.error f => decidable_of_iff (e = f) (by simp)
    | Except.ok _, Except.error _ => isFalse (fun h => Except.noConfusion h)
    | Except.error _, Except.ok _ => isFalse (fun h => Except.noConfusion h)

/-- A 28-byte ARP Request payload: htype 1, ptype 0x0800, hlen 6, plen 4,
op 1 (Request), sha aa:bb:cc:dd:ee:ff, spa 10.0.0.1, tha zero,
tpa 10.0.0.15. -/
def c5pkt : List Byte :=
  [0, 1, 8, 0, 6, 4, 0, 1,
   0xAA, 0xBB, 0xCC, 0xDD, 0xEE, 0xFF,
   10, 0, 0, 1,
   0, 0, 0, 0, 0, 0,
   10, 0, 0, 15]

/-- Claim C5 counterexample: an accepted (28-byte) ARP packet with
operation code Request whose re-issued request fails to transmit makes
`arp_input` return the send error WITHOUT recording the sender mapping:
the table comes back exactly the all-invalid initial table, holding no
valid record at all — the insert at the end of `arp_input` sits after
the `?` on `self.arp_request(..)`. -/
theorem c5_send_failure_skips_record_counterexample :
    ARP_SIZE ≤ c5pkt.length ∧
    (parseARP c5pkt).op = OP_REQUEST ∧
    arp_input devA c5pkt false initTbl 0 = (initTbl, Except.error NetErr.sendFail) ∧
    (∀ r ∈ (arp_input devA c5pkt false initTbl 0).1, r.is_valid = false) := by
  decide

/-- Claim C5 (amended: the sender mapping is recorded regardless of the
operation code, PROVIDED that, when the operation is Request, the
transmission of the re-issued ARP request does not fail; a send failure
propagates before the insert and nothing is recorded): for every
accepted packet, on the failure path `arp_input` returns the send error
with the table untouched, and otherwise it returns success with
(spa → sha) inserted — in particular, on a non-empty table, some slot
then holds the fresh record (valid, age 0, spa, sha). -/
theorem c5_arp_input_records_sender_amended (dev : NetDevice) (nh : List Byte)
    (txOk : Bool) (tbl : List ARPRecord) (now : Int)
    (hlen : ¬(nh.length < ARP_SIZE)) :
    ((parseARP nh).op = OP_REQUEST ∧ txOk = false →
      arp_input dev nh txOk tbl now = (tbl, Except.error NetErr.sendFail)) ∧
    (¬((parseARP nh).op = OP_REQUEST ∧ txOk = false) →
      arp_input dev nh txOk tbl now =
        (insert tbl (parseARP nh).spa (parseARP nh).sha now, Except.ok ())) ∧
    (0 < tbl.length → ¬((parseARP nh).op = OP_REQUEST ∧ txOk = false) →
      ∃ v, v < tbl.length ∧
        (arp_input dev nh txOk tbl now).1[v]? =
          some (freshRec (parseARP nh).spa (parseARP nh).sha now)) := by
  refine ⟨?_, ?_, ?_⟩
  · intro h
    unfold arp_input
    rw [if_neg hlen, if_pos h]
  · intro h
    unfold arp_input
    rw [if_neg hlen, if_neg h]
  · intro hl h
    rcases insert_fresh_at tbl (parseARP nh).spa (parseARP nh).sha now hl with
      ⟨v, hvlt, hv, _, _⟩
    refine ⟨v, hvlt, ?_⟩
    have heq : arp_input dev nh txOk tbl now =
        (insert tbl (parseARP nh).spa (parseARP nh).sha now, Except.ok ()) := by
      unfold arp_input
      rw [if_neg hlen, if_neg h]
    rw [heq]
    exact hv

/-- Claim C5 amended witness: the concrete Request packet with a
successful transmission on the all-invalid initial table. -/
theorem c5_arp_input_records_sender_amended_witness :
    ((parseARP c5pkt).op = OP_REQUEST ∧ true = false →
      arp_input devA c5pkt true initTbl 0 = (initTbl, Except.error NetErr.sendFail)) ∧
    (¬((parseARP c5pkt).op = OP_REQUEST ∧ true = false) →
      arp_input devA c5pkt true initTbl 0 =
        (insert initTbl (parseARP c5pkt).spa (parseARP c5pkt).sha 0, Except.ok ())) ∧
    (0 < initTbl.length → ¬((parseARP c5pkt).op = OP_REQUEST ∧ true = false) →
      ∃ v, v < initTbl.length ∧
        (arp_input devA c5pkt true initTbl 0).1[v]? =
          some (freshRec (parseARP c5pkt).spa (parseARP c5pkt).sha 0)) :=
  c5_arp_input_records_sender_amended devA c5pkt true initTbl 0 (by decide)

/-- Claim C6: a received frame shorter than the 14-byte minimum Ethernet
header makes `input` fail with the truncated-frame error and leaves the
ARP cache exactly as it was. -/
theorem c6_truncated_frame_leaves_cache (dev : NetDevice) (frame : List Byte)
    (txOk : Bool) (tbl : List ARPRecord) (now : Int)
    (h : frame.length < ETH_SIZE) :
    input dev frame txOk tbl now = (tbl, Except.error NetErr.uncompleteEth) := by
  unfold input
  rw [if_pos h]

/-- Claim C6 witness: a 5-byte frame on the initial table. -/
theorem c6_truncated_frame_leaves_cache_witness :
    input devA [0, 1, 2, 3, 4] true initTbl 0 =
      (initTbl, Except.error NetErr.uncompleteEth) :=
  c6_truncated_frame_leaves_cache devA [0, 1, 2, 3, 4] true initTbl 0 (by decide)

/-- Claim C10: a received frame with a complete Ethernet header whose
destination is neither this device's hardware address nor broadcast is
silently discarded: `input` returns success, performs no dispatch and
leaves the ARP cache unchanged. -/
theorem c10_foreign_destination_filtered (dev : NetDevice) (frame : List Byte)
    (txOk : Bool) (tbl : List ARPRecord) (now : Int)
    (hlen : ¬(frame.length < ETH_SIZE))
    (hb : (parseEth frame).dst ≠ MAC_BROADCAST)
    (hh : (parseEth frame).dst ≠ dev.hwa) :
    input dev frame txOk tbl now = (tbl, Except.ok ()) := by
  unfold input
  rw [if_neg hlen, if_pos (And.intro hb hh)]

/-- Claim C10 witness: a 14-byte ARP-EtherType frame addressed to the
unicast MAC 00:00:00:00:00:01, which is neither broadcast nor devA's
address. -/
theorem c10_foreign_destination_filtered_witness :
    input devA [0, 0, 0, 0, 0, 1, 0, 0, 0, 0, 0, 2, 8, 6] true initTbl 0 =
      (initTbl, Except.ok ()) :=
  c10_foreign_destination_filtered devA [0, 0, 0, 0, 0, 1, 0, 0, 0, 0, 0, 2, 8, 6]
    true initTbl 0 (by decide) (by decide) (by decide)

/-! ### Claims C8, C9: the ARP request frame -/

/-- Claim C8 (code bug): the frame `arp_request` emits carries the ZERO
hardware address as its Ethernet destination, not broadcast — the call
site passes `Mac::ZERO` for `dst_mac` — while the target hardware field
is zeroed as claimed.  Zero is not the broadcast address. -/
theorem c8_arp_request_eth_dst_is_zero (dev : NetDevice) (tip : Nat) :
    (arp_request dev tip).ethDst = MAC_ZERO ∧
    (arp_request dev tip).arp.tha = MAC_ZERO ∧
    MAC_ZERO ≠ MAC_BROADCAST :=
  ⟨rfl, rfl, by decide⟩

/-- Claim C9: an `arp_request` for a target outside the device's subnet
(its AND with the netmask differs from the device's network) uses the
netmask value itself as the ARP query target; an in-subnet target is
used unchanged. -/
theorem c9_off_subnet_netmask_substitution (dev : NetDevice) (tip : Nat) :
    (tip &&& dev.netmask ≠ dev.ip &&& dev.netmask →
      (arp_request dev tip).arp.tpa = dev.netmask) ∧
    (tip &&& dev.netmask = dev.ip &&& dev.netmask →
      (arp_request dev tip).arp.tpa = tip) := by
  constructor
  · intro h
    simp [arp_request, arp_output, arp_request_target, h]
  · intro h
    simp [arp_request, arp_output, arp_request_target, h]

/-! ### Claim C7: linkoutput -/

theorem linkoutput_all_ok (oracle : Nat → Except Nat Nat) (chain : List (List Byte))
    (k : Nat) (h : ∀ i, i < chain.length → ∃ n, oracle (k + i) = Except.ok n) :
    linkoutput oracle chain k = (chain, Except.ok ()) := by
  induction chain generalizing k with
  | nil => rfl
  | cons seg rest ih =>
    rcases h 0 (by simp) with ⟨n, hn⟩
    rw [Nat.add_zero] at hn
    have hrest := ih (k + 1) ?_
    · simp only [linkoutput, hn, hrest]
    · intro i hi
      rcases h (i + 1) (by simpa using Nat.succ_lt_succ hi) with ⟨m, hm⟩
      refine ⟨m, ?_⟩
      rw [show k + 1 + i = k + (i + 1) by omega]
      exact hm

theorem linkoutput_err (oracle : Nat → Except Nat Nat) (chain : List (List Byte))
    (k j e : Nat) (hj : j < chain.length) (he : oracle (k + j) = Except.error e)
    (hpre : ∀ i, i < j → ∃ n, oracle (k + i) = Except.ok n) :
    linkoutput oracle chain k = (chain.take (j + 1), Except.error e) := by
  induction chain generalizing k j with
  | nil => simp at hj
  | cons seg rest ih =>
    cases j with
    | zero =>
      rw [Nat.add_zero] at he
      simp only [linkoutput, he]
      simp
    | succ j =>
      rcases hpre 0 (by omega) with ⟨n, hn⟩
      rw [Nat.add_zero] at hn
      have hrest := ih (k + 1) j (by simpa using hj) ?_ ?_
      · simp only [linkoutput, hn, hrest]
        simp
      · rw [show k + 1 + j = k + (j + 1) by omega]
        exact he
      · intro i hi
        rcases hpre (i + 1) (by omega) with ⟨m, hm⟩
        refine ⟨m, ?_⟩
        rw [show k + 1 + i = k + (i + 1) by omega]
        exact hm

/-- Claim C7 (amended: each segment's full physical-layer slice is passed
to the transmit primitive exactly ONCE, in chain order — a short write is
NOT retried, the byte count the primitive reports is ignored): with no
socket error the primitive receives exactly the chain's segments in
order (so exactly 3 calls for a 3-segment chain); the first socket error
aborts the call with that error after the failing segment, the later
segments never being passed to the primitive. -/
theorem c7_linkoutput_once_per_segment_amended (oracle : Nat → Except Nat Nat)
    (chain : List (List Byte)) (k : Nat) :
    ((∀ i, i < chain.length → ∃ n, oracle (k + i) = Except.ok n) →
      linkoutput oracle chain k = (chain, Except.ok ())) ∧
    (∀ (j e : Nat), j < chain.length → oracle (k + j) = Except.error e →
      (∀ i, i < j → ∃ n, oracle (k + i) = Except.ok n) →
      linkoutput oracle chain k = (chain.take (j + 1), Except.error e)) ∧
    (∀ (s1 s2 s3 : List Byte), (∀ i, i < 3 → ∃ n, oracle (k + i) = Except.ok n) →
      linkoutput oracle [s1, s2, s3] k = ([s1, s2, s3], Except.ok ())) :=
  ⟨linkoutput_all_ok oracle chain k,
   fun j e hj he hpre => linkoutput_err oracle chain k j e hj he hpre,
   fun s1 s2 s3 h => linkoutput_all_ok oracle [s1, s2, s3] k (by simpa using h)⟩

/-- A 5-byte segment. -/
def seg5 : List Byte := [0, 1, 2, 3, 4]

/-- A socket whose every `sendto` reports only 3 bytes written. -/
def shortOracle : Nat → Except Nat Nat := fun _ => Except.ok 3

/-- Claim C7 counterexample: on a one-segment chain of 5 bytes whose
`sendto` reports a short write of 3 bytes, `linkoutput` succeeds after a
SINGLE call to the transmit primitive — the short write is never
retried, so the remaining 2 bytes of the segment are never sent,
contradicting "retrying short writes until the whole segment is sent". -/
theorem c7_short_write_not_retried_counterexample :
    seg5.length = 5 ∧ shortOracle 0 = Except.ok 3 ∧
    linkoutput shortOracle [seg5] 0 = ([seg5], Except.ok ()) ∧
    (linkoutput shortOracle [seg5] 0).1.length = 1 := by
  exact ⟨rfl, rfl, rfl, rfl⟩

end Sip
